import Mathlib

/-!
Shallow embedding of the serial task-bench executor (`src/serial/main.cc`).

The executor runs a list of task graphs on a single thread.  Per graph it
owns an `nb_fields × max_width` matrix of tiles (double buffering over
rows); per timestep it visits the active column range, gathers dependency
tiles from the previous row, and dispatches either the single-input kernel
(`task1`) or the multi-input kernel (`task2`).

Modelling conventions:
* machine integers (`int`, `long`) become `Int`; C++ `%` on them is
  truncated division, so it is embedded as `Int.tmod`;
* a heap buffer is `Option Contents`: `none` models a NULL pointer
  (e.g. a failed `malloc`); the kernel `execute_point` is opaque, so a
  buffer's contents are modelled as the identity `(t, x)` of the last
  kernel write into it (`none` before any write);
* the opaque external calls (`TaskGraph::prepare_scratch` and
  `graph.execute_point`) are recorded as events in a trace; a kernel call
  event records which task wrapper issued it, the graph index, timestep,
  column, the destination buffer (as its flat tile index), the input
  buffers in order (as flat tile indices), and the scratch buffer passed;
* malloc results are stored unchecked by the constructor, exactly as in
  the source.  A failed top-level `matrix` or per-graph `data` malloc
  would be dereferenced immediately by the constructor itself (undefined
  behavior), so the allocation oracle only covers the per-tile
  `output_buff` mallocs, whose NULL results the source stores and later
  checks inside `task1`/`task2`.  The NULL checks of `matrix` and
  `matrix[idx].data` in `execute_timestep` are still embedded faithfully
  (both are `Option` in the state).
-/

/-- Contents of one tile's output buffer: `none` before any kernel write,
`some (t, x)` after the kernel call for point `(t, x)` wrote into it. -/
abbrev Contents := Option (Int × Int)

/-- Tile `tile_t`; `output_buff = none` models a NULL buffer pointer. -/
structure tile_t where
  output_buff : Option Contents
deriving DecidableEq, Repr

/-- Per-graph tile store `matrix_t`; `data = none` models a NULL data
pointer.  `M` mirrors `graph.nb_fields`, `N` mirrors `graph.max_width`. -/
structure matrix_t where
  data : Option (Int → tile_t)
  M : Int
  N : Int

/-- The external graph collaborator `TaskGraph` (fields and hooks the
executor consumes; the kernel hook itself is opaque and is modelled by the
event trace). -/
structure TaskGraph where
  nb_fields : Int
  max_width : Int
  timesteps : Int
  output_bytes_per_task : Nat
  scratch_bytes_per_task : Nat
  offset_at_timestep : Int → Int
  width_at_timestep : Int → Int
  dependence_set_at_timestep : Int → Int
  dependencies : Int → Int → List (Int × Int)

instance : Inhabited TaskGraph :=
  ⟨{ nb_fields := 0, max_width := 0, timesteps := 0,
     output_bytes_per_task := 0, scratch_bytes_per_task := 0,
     offset_at_timestep := fun _ => 0, width_at_timestep := fun _ => 0,
     dependence_set_at_timestep := fun _ => 0,
     dependencies := fun _ _ => [] }⟩

/-- Payload `payload_t` from the source: column `x`, timestep `y`, the graph. -/
structure payload_t where
  x : Int
  y : Int
  graph : TaskGraph

/-- One observable external call.  `prepare` records
`TaskGraph::prepare_scratch`; `call` records one `graph.execute_point`
invocation: `isTask1` tells which task wrapper issued it, `dst` is the
flat index of the destination tile, `inputs` the flat indices of the
input buffers in the order pushed, `scratch` the shared scratch buffer
passed (as the state's scratch value), `scratch_len` the
`scratch_bytes_per_task` length argument. -/
inductive Event where
  | prepare (len : Nat)
  | call (isTask1 : Bool) (g : Nat) (y x : Int) (dst : Int)
      (inputs : List Int) (scratch : Option Nat) (scratch_len : Nat)
deriving DecidableEq, Repr

/-- Is this event a `prepare_scratch` call? -/
def Event.isPrepare : Event → Bool
  | .prepare _ => true
  | .call .. => false

/-- Is this event a kernel (`execute_point`) call? -/
def Event.isCall : Event → Bool
  | .prepare _ => false
  | .call .. => true

/-- Did this event come from the single-input wrapper `task1`? -/
def Event.isSingle : Event → Bool
  | .prepare _ => false
  | .call b _ _ _ _ _ _ _ => b

/-- The scratch buffer recorded in a kernel-call event. -/
def Event.scratchOf : Event → Option (Option Nat)
  | .prepare _ => none
  | .call _ _ _ _ _ _ sc _ => some sc

/-- Single-input kernel wrapper `task1` (main.cc:37).  Returns `none` on
the NULL-pointer skip, otherwise the updated destination tile together
with the kernel-call event.  It pushes the destination tile's own buffer
as the sole input. -/
def task1 (gidx : Nat) (scratch : Option Nat) (dst : Int)
    (tile_out : Option tile_t) (payload : payload_t) :
    Option (tile_t × Event) :=
  match tile_out with
  | none => none
  | some tout =>
    if tout.output_buff = none then none
    else
      some ({ output_buff := some (some (payload.y, payload.x)) },
            .call true gidx payload.y payload.x dst [dst] scratch
              payload.graph.scratch_bytes_per_task)

/-- Multi-input kernel wrapper `task2` (main.cc:62).  `tile_in` carries
each gathered input tile with its flat index (its pointer identity).  If
the output buffer or any input buffer is NULL the whole point is skipped
(`none`), as in the source's early `return`s; otherwise the kernel is
called with all the gathered inputs in order. -/
def task2 (gidx : Nat) (scratch : Option Nat) (dst : Int)
    (tile_out : Option tile_t) (tile_in : List (Int × tile_t))
    (payload : payload_t) : Option (tile_t × Event) :=
  match tile_out with
  | none => none
  | some tout =>
    if tout.output_buff = none then none
    else if tile_in.any (fun p => p.2.output_buff.isNone) then none
    else
      some ({ output_buff := some (some (payload.y, payload.x)) },
            .call false gidx payload.y payload.x dst (tile_in.map Prod.fst)
              scratch payload.graph.scratch_bytes_per_task)

/-- Destination (and source) row selection: `t % nb_fields` with C++
truncated `%`. -/
def row_of (t nb_fields : Int) : Int := Int.tmod t nb_fields

/-- Functional update of a tile store at one flat index. -/
def updateData (d : Int → tile_t) (i : Int) (tile : tile_t) : Int → tile_t :=
  fun j => if j = i then tile else d j

/-- The dependency-gathering loop of the multi-input branch
(main.cc:244-263): for each declared dependency, skip it if its source
column is out of `[0, N)` or its flat index is out of `[0, M*N)`,
otherwise keep the source tile at row `(t-1) % nb_fields`. -/
def gather_inputs (g : TaskGraph) (dset t nb_fields M N : Int)
    (d : Int → tile_t) (x : Int) : List (Int × tile_t) :=
  (g.dependencies dset x).filterMap (fun dep =>
    let dep_x := dep.1
    if dep_x < 0 ∨ N ≤ dep_x then none
    else
      let prev_row_idx := row_of (t - 1) nb_fields
      let dep_array_idx := prev_row_idx * N + dep_x
      if dep_array_idx < 0 ∨ M * N ≤ dep_array_idx then none
      else some (dep_array_idx, d dep_array_idx))

/-- The body of the column loop of `SerialApp::execute_timestep`
(main.cc:209-269) for one column `x`: validate `x`, compute and validate
the destination flat index, then dispatch `task1` (no dependencies, or
`t == 0`) or gather inputs and dispatch `task2`.  Returns the updated
tile store and the kernel-call events issued (empty on any skip). -/
def execute_point (gidx : Nat) (g : TaskGraph) (scratch : Option Nat)
    (t dset nb_fields M N : Int) (d : Int → tile_t) (x : Int) :
    (Int → tile_t) × List Event :=
  if x < 0 ∨ N ≤ x then (d, [])
  else
    let deps := g.dependencies dset x
    let payload : payload_t := { x := x, y := t, graph := g }
    let row_idx := row_of t nb_fields
    let array_idx := row_idx * N + x
    if array_idx < 0 ∨ M * N ≤ array_idx then (d, [])
    else if deps = [] then
      match task1 gidx scratch array_idx (some (d array_idx)) payload with
      | none => (d, [])
      | some (tile, ev) => (updateData d array_idx tile, [ev])
    else if t = 0 then
      match task1 gidx scratch array_idx (some (d array_idx)) payload with
      | none => (d, [])
      | some (tile, ev) => (updateData d array_idx tile, [ev])
    else
      let inputs := gather_inputs g dset t nb_fields M N d x
      match task2 gidx scratch array_idx (some (d array_idx)) inputs payload with
      | none => (d, [])
      | some (tile, ev) => (updateData d array_idx tile, [ev])

/-- The integer range `[offset, offset + width)` enumerated in increasing
order: the columns visited by `for (int x = offset; x <= offset+width-1;
x++)`. -/
def intRange (offset width : Int) : List Int :=
  (List.range width.toNat).map (fun (k : Nat) => offset + (k : Int))

/-- The column loop of `SerialApp::execute_timestep`: fold
`execute_point` over a column list, accumulating the trace. -/
def pointLoop (gidx : Nat) (g : TaskGraph) (scratch : Option Nat)
    (t dset nb_fields M N : Int)
    (init : (Int → tile_t) × List Event) (xs : List Int) :
    (Int → tile_t) × List Event :=
  xs.foldl (fun acc x =>
    let r := execute_point gidx g scratch t dset nb_fields M N acc.1 x
    (r.1, acc.2 ++ r.2)) init

/-- The executor's state: the graphs (read-only), the per-graph matrices
(`none` models a NULL `matrix` pointer), and the shared scratch buffer
(`none` models NULL `scratch_memory`, `some len` an allocated buffer). -/
structure AppState where
  graphs : List TaskGraph
  matrix : Option (Nat → matrix_t)
  scratch : Option Nat

/-- Timestep executor `SerialApp::execute_timestep` (main.cc:183): validate the graph
index, the matrix data pointer and `nb_fields`; on failure log and return
(state unchanged, no events).  Otherwise run the column loop over the
active range and store the updated tile data. -/
def execute_timestep (st : AppState) (idx : Nat) (t : Int) :
    AppState × List Event :=
  if h : st.graphs.length ≤ idx then (st, [])
  else
    let g := st.graphs.get ⟨idx, by omega⟩
    let offset := g.offset_at_timestep t
    let width := g.width_at_timestep t
    let dset := g.dependence_set_at_timestep t
    let nb_fields := g.nb_fields
    match st.matrix with
    | none => (st, [])
    | some mats =>
      match (mats idx).data with
      | none => (st, [])
      | some d =>
        if nb_fields ≤ 0 then (st, [])
        else
          let M := (mats idx).M
          let N := (mats idx).N
          let r := pointLoop idx g st.scratch t dset nb_fields M N (d, [])
            (intRange offset width)
          ({ st with matrix := some (fun j =>
              if j = idx then { mats idx with data := some r.1 } else mats j) },
           r.2)

/-- The timesteps `0, 1, ..., timesteps - 1` of one graph in execution
order (`for (int y = 0; y < g.timesteps; y++)`). -/
def timestepList (g : TaskGraph) : List Int :=
  (List.range g.timesteps.toNat).map (fun (k : Nat) => (k : Int))

/-- Main loop `SerialApp::execute_main_loop` (main.cc:166): for each graph in order,
for each timestep in increasing order, run `execute_timestep`,
accumulating the trace. -/
def execute_main_loop (st : AppState) : AppState × List Event :=
  (List.range st.graphs.length).foldl
    (fun acc i =>
      (timestepList (st.graphs.getD i default)).foldl
        (fun acc2 t =>
          let r := execute_timestep acc2.1 i t
          (r.1, acc2.2 ++ r.2))
        acc)
    (st, [])

/-- Maximum `scratch_bytes_per_task` as computed by the constructor's loop
(main.cc:135-137). -/
def max_scratch (graphs : List TaskGraph) : Nat :=
  graphs.foldl
    (fun m g => if m < g.scratch_bytes_per_task then g.scratch_bytes_per_task else m)
    0

/-- Constructor `SerialApp::SerialApp` (main.cc:117): allocate every graph's matrix
(`M = nb_fields`, `N = max_width`) and every tile's buffer; `buffOk i j`
tells whether the `malloc` for tile `j` of graph `i` succeeds — its
result is stored unchecked, exactly as in the source.  Then, if the
maximal `scratch_bytes_per_task` is positive, allocate the shared scratch
buffer and call `TaskGraph::prepare_scratch` once. -/
def SerialApp_init (graphs : List TaskGraph) (buffOk : Nat → Int → Bool) :
    AppState × List Event :=
  let mats : Nat → matrix_t := fun i =>
    let g := graphs.getD i default
    { M := g.nb_fields, N := g.max_width,
      data := some (fun j =>
        { output_buff := if buffOk i j then some none else none }) }
  let msbpt := max_scratch graphs
  if 0 < msbpt then
    ({ graphs := graphs, matrix := some mats, scratch := some msbpt },
     [Event.prepare msbpt])
  else
    ({ graphs := graphs, matrix := some mats, scratch := none }, [])

/-- A whole run (`main`): construct the app, then execute the main loop;
the trace is the constructor's events followed by the loop's events. -/
def runApp (graphs : List TaskGraph) (buffOk : Nat → Int → Bool) :
    AppState × List Event :=
  let r1 := SerialApp_init graphs buffOk
  let r2 := execute_main_loop r1.1
  (r2.1, r1.2 ++ r2.2)

/-!
Concrete instances used by the witness theorems.  `exGraph` is the worked
example of the specification: `nb_fields = 2`, `max_width = 2`,
`timesteps = 2`, full active range at every timestep, no dependencies at
`t = 0` and a same-column dependency at `t = 1`.
-/

/-- Example graph: stencil-like, one same-column dependency per point. -/
def exGraph : TaskGraph :=
  { nb_fields := 2, max_width := 2, timesteps := 2,
    output_bytes_per_task := 4, scratch_bytes_per_task := 0,
    offset_at_timestep := fun _ => 0,
    width_at_timestep := fun _ => 2,
    dependence_set_at_timestep := fun t => t,
    dependencies := fun dset x => if dset = 0 then [] else [(x, x)] }

/-- Example graph with an out-of-range dependency column at `x = 0`. -/
def exGraph2 : TaskGraph :=
  { exGraph with dependencies := fun dset x =>
      if dset = 0 then [] else if x = 0 then [(5, 5)] else [(x, x)] }

/-- Example graph declaring scratch memory. -/
def exGraphScr : TaskGraph := { exGraph with scratch_bytes_per_task := 16 }

/-- Example graph with an invalid (non-positive) `nb_fields`. -/
def exGraphBad : TaskGraph := { exGraph with nb_fields := 0 }

/-- Tile store with every buffer allocated and unwritten. -/
def exStore : Int → tile_t := fun _ => { output_buff := some none }

/-- Tile store whose tile `0` has a NULL buffer (failed allocation). -/
def exStoreBad : Int → tile_t := fun j =>
  if j = 0 then { output_buff := none } else { output_buff := some none }

/-- Matrices of the example application state. -/
def exMats : Nat → matrix_t := fun _ => { data := some exStore, M := 2, N := 2 }

/-- Example application state holding `exGraph`. -/
def exState : AppState :=
  { graphs := [exGraph], matrix := some exMats, scratch := none }

/-- Example application state holding the invalid graph `exGraphBad`. -/
def exStateBad : AppState :=
  { graphs := [exGraphBad], matrix := some exMats, scratch := none }

/-!
General lemmas about the embedding: bounds of the row selection, the
exhaustive shape of one point execution, the skip conditions, and
invariants of the loops.
-/

/-- Destination flat indices of in-range rows and columns are in range. -/
theorem dest_idx_bounds {r M N x : Int} (hr0 : 0 ≤ r) (hrM : r < M)
    (hx0 : 0 ≤ x) (hxN : x < N) :
    0 ≤ r * N + x ∧ r * N + x < M * N := by
  have hN : 0 < N := by omega
  constructor
  · have := mul_nonneg hr0 hN.le
    omega
  · nlinarith [mul_le_mul_of_nonneg_right (show r + 1 ≤ M by omega) hN.le]

/-- Row selection stays in `[0, nb_fields)` for nonnegative timesteps. -/
theorem row_of_bounds {t nb : Int} (ht : 0 ≤ t) (hnb : 0 < nb) :
    0 ≤ row_of t nb ∧ row_of t nb < nb :=
  ⟨Int.tmod_nonneg _ ht, Int.tmod_lt_of_pos _ hnb⟩

/-- Row selection is periodic with period `nb_fields`. -/
theorem row_of_period {t nb : Int} (ht : 0 ≤ t) (hnb : 0 < nb) :
    row_of (t + nb) nb = row_of t nb := by
  unfold row_of
  rw [Int.tmod_eq_emod (by omega) (by omega), Int.tmod_eq_emod ht (by omega),
    show t + nb = t + nb * 1 by ring, Int.add_mul_emod_self_left]

/-- One point execution either skips (tile store unchanged, no events) or
performs exactly one kernel call writing the point's tag into the
destination tile. -/
theorem execute_point_cases (gidx : Nat) (g : TaskGraph) (scratch : Option Nat)
    (t dset nb M N : Int) (d : Int → tile_t) (x : Int) :
    execute_point gidx g scratch t dset nb M N d x = (d, []) ∨
    ∃ b ins,
      execute_point gidx g scratch t dset nb M N d x =
        (updateData d (row_of t nb * N + x)
           { output_buff := some (some (t, x)) },
         [Event.call b gidx t x (row_of t nb * N + x) ins scratch
            g.scratch_bytes_per_task]) := by
  simp only [execute_point, task1, task2]
  split
  · exact Or.inl rfl
  split
  · exact Or.inl rfl
  split
  · split
    · exact Or.inl rfl
    · next tile ev heq =>
      split at heq
      · simp at heq
      · simp only [Option.some.injEq, Prod.mk.injEq] at heq
        obtain ⟨rfl, rfl⟩ := heq
        exact Or.inr ⟨true, _, rfl⟩
  · split
    · split
      · exact Or.inl rfl
      · next tile ev heq =>
        split at heq
        · simp at heq
        · simp only [Option.some.injEq, Prod.mk.injEq] at heq
          obtain ⟨rfl, rfl⟩ := heq
          exact Or.inr ⟨true, _, rfl⟩
    · split
      · exact Or.inl rfl
      · next tile ev heq =>
        split at heq
        · simp at heq
        · split at heq
          · simp at heq
          · simp only [Option.some.injEq, Prod.mk.injEq] at heq
            obtain ⟨rfl, rfl⟩ := heq
            exact Or.inr ⟨false, _, rfl⟩

/-- An out-of-range column is skipped with the tile store unchanged. -/
theorem execute_point_oob (gidx : Nat) (g : TaskGraph) (scratch : Option Nat)
    (t dset nb M N : Int) (d : Int → tile_t) (x : Int)
    (hx : x < 0 ∨ N ≤ x) :
    execute_point gidx g scratch t dset nb M N d x = (d, []) := by
  simp only [execute_point]
  rw [if_pos hx]

/-- A NULL destination buffer skips the point in every dispatch path. -/
theorem execute_point_null_dst (gidx : Nat) (g : TaskGraph)
    (scratch : Option Nat) (t dset nb M N : Int) (d : Int → tile_t) (x : Int)
    (hbuff : (d (row_of t nb * N + x)).output_buff = none) :
    execute_point gidx g scratch t dset nb M N d x = (d, []) := by
  simp [execute_point, task1, task2, hbuff]

/-- Conditions under which the single-input wrapper `task1` issues its
kernel call: the destination buffer is non-NULL, the column and the
destination index are in range, and the dependency list is empty or
`t = 0`. -/
theorem execute_point_single (gidx : Nat) (g : TaskGraph) (scratch : Option Nat)
    (t dset nb M N : Int) (d : Int → tile_t) (x : Int)
    (ht : 0 ≤ t) (hnb : 0 < nb) (hM : nb ≤ M) (hx0 : 0 ≤ x) (hxN : x < N)
    (hbuff : (d (row_of t nb * N + x)).output_buff ≠ none)
    (hcond : g.dependencies dset x = [] ∨ t = 0) :
    execute_point gidx g scratch t dset nb M N d x =
      (updateData d (row_of t nb * N + x) { output_buff := some (some (t, x)) },
       [Event.call true gidx t x (row_of t nb * N + x) [row_of t nb * N + x]
          scratch g.scratch_bytes_per_task]) := by
  have hrow := row_of_bounds ht hnb
  have hb := dest_idx_bounds hrow.1 (lt_of_lt_of_le hrow.2 hM) hx0 hxN
  have hx : ¬(x < 0 ∨ N ≤ x) := by omega
  have hidx : ¬(row_of t nb * N + x < 0 ∨ M * N ≤ row_of t nb * N + x) := by
    omega
  simp only [execute_point, task1]
  rw [if_neg hx, if_neg hidx]
  rcases hcond with hdeps | ht0
  · rw [if_pos hdeps, if_neg hbuff]
  · by_cases hdeps : g.dependencies dset x = []
    · rw [if_pos hdeps, if_neg hbuff]
    · rw [if_neg hdeps, if_pos ht0, if_neg hbuff]

/-- In the multi-input path, a NULL buffer among the gathered inputs
skips the whole point. -/
theorem execute_point_multi_skip (gidx : Nat) (g : TaskGraph)
    (scratch : Option Nat) (t dset nb M N : Int) (d : Int → tile_t) (x : Int)
    (ht0 : ¬ t = 0)
    (hdeps : g.dependencies dset x ≠ [])
    (hany : (gather_inputs g dset t nb M N d x).any
        (fun p => p.2.output_buff.isNone) = true) :
    execute_point gidx g scratch t dset nb M N d x = (d, []) := by
  by_cases hbuff : (d (row_of t nb * N + x)).output_buff = none
  · exact execute_point_null_dst _ _ _ _ _ _ _ _ _ _ hbuff
  · by_cases hx : x < 0 ∨ N ≤ x
    · exact execute_point_oob _ _ _ _ _ _ _ _ _ _ hx
    by_cases hidx : row_of t nb * N + x < 0 ∨ M * N ≤ row_of t nb * N + x
    · simp only [execute_point]
      rw [if_neg hx, if_pos hidx]
    simp only [execute_point, task2]
    rw [if_neg hx, if_neg hidx, if_neg hdeps, if_neg ht0, if_neg hbuff,
      if_pos hany]

/-- In the multi-input path with all gathered buffers allocated, `task2`
issues exactly one kernel call with the gathered inputs in order. -/
theorem execute_point_multi_ok (gidx : Nat) (g : TaskGraph)
    (scratch : Option Nat) (t dset nb M N : Int) (d : Int → tile_t) (x : Int)
    (ht : 1 ≤ t) (hnb : 0 < nb) (hM : nb ≤ M) (hx0 : 0 ≤ x) (hxN : x < N)
    (hbuff : (d (row_of t nb * N + x)).output_buff ≠ none)
    (hdeps : g.dependencies dset x ≠ [])
    (hany : (gather_inputs g dset t nb M N d x).any
        (fun p => p.2.output_buff.isNone) = false) :
    execute_point gidx g scratch t dset nb M N d x =
      (updateData d (row_of t nb * N + x) { output_buff := some (some (t, x)) },
       [Event.call false gidx t x (row_of t nb * N + x)
          ((gather_inputs g dset t nb M N d x).map Prod.fst)
          scratch g.scratch_bytes_per_task]) := by
  have hrow := row_of_bounds (by omega : (0:Int) ≤ t) hnb
  have hb := dest_idx_bounds hrow.1 (lt_of_lt_of_le hrow.2 hM) hx0 hxN
  have hx : ¬(x < 0 ∨ N ≤ x) := by omega
  have hidx : ¬(row_of t nb * N + x < 0 ∨ M * N ≤ row_of t nb * N + x) := by
    omega
  have ht0 : ¬(t = 0) := by omega
  simp only [execute_point, task2]
  rw [if_neg hx, if_neg hidx, if_neg hdeps, if_neg ht0, if_neg hbuff, hany,
    if_neg Bool.false_ne_true]

/-- For `t ≥ 1` the inner bounds check of the gathering loop never fires:
the gathered inputs are exactly the in-range dependency columns, in
declared order, at row `(t-1) % nb_fields`. -/
theorem gather_inputs_eq (g : TaskGraph) (dset t nb M N : Int)
    (d : Int → tile_t) (x : Int)
    (ht : 1 ≤ t) (hnb : 0 < nb) (hM : nb ≤ M) :
    gather_inputs g dset t nb M N d x =
      ((g.dependencies dset x).filter
          (fun dep => decide (0 ≤ dep.1 ∧ dep.1 < N))).map
        (fun dep => (row_of (t - 1) nb * N + dep.1,
          d (row_of (t - 1) nb * N + dep.1))) := by
  unfold gather_inputs
  generalize g.dependencies dset x = l
  induction l with
  | nil => rfl
  | cons head tail ih =>
    simp only [List.filterMap_cons, List.filter_cons]
    by_cases h1 : head.1 < 0 ∨ N ≤ head.1
    · have h2 : ¬(0 ≤ head.1 ∧ head.1 < N) := by omega
      simp only [if_pos h1, decide_eq_true_eq]
      rw [if_neg h2]
      exact ih
    · have h2 : (0 ≤ head.1 ∧ head.1 < N) := by omega
      have hrow := row_of_bounds (by omega : (0:Int) ≤ t - 1) hnb
      have hb := dest_idx_bounds hrow.1 (lt_of_lt_of_le hrow.2 hM) h2.1 h2.2
      have h3 : ¬(row_of (t - 1) nb * N + head.1 < 0 ∨
          M * N ≤ row_of (t - 1) nb * N + head.1) := by omega
      simp only [if_neg h1, if_neg h3, decide_eq_true_eq]
      rw [if_pos h2, List.map_cons]
      exact congrArg _ ih

/-- Folding a predicate-preserving step preserves the predicate. -/
theorem foldl_inv {α σ : Type _} (R : σ → Prop) (f : σ → α → σ)
    (hf : ∀ s a, R s → R (f s a)) :
    ∀ (l : List α) (s : σ), R s → R (l.foldl f s) := by
  intro l
  induction l with
  | nil => exact fun s h => h
  | cons a l ih => exact fun s h => ih _ (hf s a h)

/-- A column whose execution always skips can be dropped from the column
loop without changing its result: the loop continues past it. -/
theorem pointLoop_drop (gidx : Nat) (g : TaskGraph) (scratch : Option Nat)
    (t dset nb M N : Int) (x : Int)
    (h : ∀ d, execute_point gidx g scratch t dset nb M N d x = (d, []))
    (init : (Int → tile_t) × List Event) (xs1 xs2 : List Int) :
    pointLoop gidx g scratch t dset nb M N init (xs1 ++ x :: xs2) =
      pointLoop gidx g scratch t dset nb M N init (xs1 ++ xs2) := by
  unfold pointLoop
  rw [List.foldl_append, List.foldl_append, List.foldl_cons]
  congr 1
  simp [h]

/-- Every event of one point execution is a kernel call recording the
shared scratch buffer. -/
theorem execute_point_events (gidx : Nat) (g : TaskGraph) (scratch : Option Nat)
    (t dset nb M N : Int) (d : Int → tile_t) (x : Int) (ev : Event)
    (hev : ev ∈ (execute_point gidx g scratch t dset nb M N d x).2) :
    ev.isCall = true ∧ ev.scratchOf = some scratch := by
  rcases execute_point_cases gidx g scratch t dset nb M N d x with h | ⟨b, ins, h⟩
  · rw [h] at hev
    simp at hev
  · rw [h] at hev
    simp only [List.mem_singleton] at hev
    subst hev
    exact ⟨rfl, rfl⟩

/-- A property of all events of each point execution holds for all events
of the column loop. -/
theorem pointLoop_events (gidx : Nat) (g : TaskGraph) (scratch : Option Nat)
    (t dset nb M N : Int) (P : Event → Prop)
    (hP : ∀ d x ev, ev ∈ (execute_point gidx g scratch t dset nb M N d x).2 → P ev)
    (xs : List Int) (init : (Int → tile_t) × List Event)
    (hinit : ∀ ev ∈ init.2, P ev) :
    ∀ ev ∈ (pointLoop gidx g scratch t dset nb M N init xs).2, P ev := by
  unfold pointLoop
  refine foldl_inv (fun acc => ∀ ev ∈ acc.2, P ev) _ ?_ xs init hinit
  intro s a hs ev hev
  dsimp only at hev
  rcases List.mem_append.mp hev with hmem | hmem
  · exact hs ev hmem
  · exact hP s.1 a ev hmem

/-- A timestep execution never modifies the graph list or the scratch
buffer. -/
theorem execute_timestep_state (st : AppState) (idx : Nat) (t : Int) :
    (execute_timestep st idx t).1.graphs = st.graphs ∧
    (execute_timestep st idx t).1.scratch = st.scratch := by
  simp only [execute_timestep]
  repeat' split
  all_goals exact ⟨rfl, rfl⟩

/-- Every event of a timestep execution is a kernel call recording the
state's scratch buffer. -/
theorem execute_timestep_events (st : AppState) (idx : Nat) (t : Int) :
    ∀ ev ∈ (execute_timestep st idx t).2,
      ev.isCall = true ∧ ev.scratchOf = some st.scratch := by
  simp only [execute_timestep]
  split
  · intro ev hev
    simp at hev
  split
  · intro ev hev
    simp at hev
  split
  · intro ev hev
    simp at hev
  split
  · intro ev hev
    simp at hev
  refine pointLoop_events _ _ _ _ _ _ _ _ _ ?_ _ _ ?_
  · intro d x ev hev
    exact execute_point_events _ _ _ _ _ _ _ _ _ _ _ hev
  · intro ev hev
    simp at hev

/-- Induction principle for the main loop: a state predicate preserved by
every timestep, whose steps emit only events satisfying `Q`, yields `Q`
for the whole trace. -/
theorem execute_main_loop_inv (P : AppState → Prop) (Q : Event → Prop)
    (hstepP : ∀ s i t, P s → P (execute_timestep s i t).1)
    (hstepQ : ∀ s i t, P s → ∀ ev ∈ (execute_timestep s i t).2, Q ev)
    (st : AppState) (hst : P st) :
    P (execute_main_loop st).1 ∧ ∀ ev ∈ (execute_main_loop st).2, Q ev := by
  unfold execute_main_loop
  refine foldl_inv
    (fun acc : AppState × List Event => P acc.1 ∧ ∀ ev ∈ acc.2, Q ev)
    _ ?_ (List.range st.graphs.length) (st, []) ⟨hst, by simp⟩
  intro s i hs
  refine foldl_inv
    (fun acc : AppState × List Event => P acc.1 ∧ ∀ ev ∈ acc.2, Q ev)
    _ ?_ (timestepList (st.graphs.getD i default)) s hs
  intro s2 t hs2
  dsimp only
  refine ⟨hstepP _ _ _ hs2.1, ?_⟩
  intro ev hev
  rcases List.mem_append.mp hev with hmem | hmem
  · exact hs2.2 ev hmem
  · exact hstepQ _ _ _ hs2.1 ev hmem

/-!
Claim theorems.  Each theorem settles one claim about the executor; the
witnesses instantiate the hypotheses at the concrete example instances.
-/

/-- C1: for a point with an allocated destination buffer, an in-range
column and a valid row configuration, the single-input wrapper `task1` is
dispatched if and only if the dependency list is empty or `t = 0` (even
when the `t = 0` list is non-empty), and it passes the destination tile's
own buffer as the sole input; in every other case the multi-input wrapper
`task2` is dispatched, so any kernel call it makes is a multi-input
call. -/
theorem c1_single_input_dispatch (gidx : Nat) (g : TaskGraph)
    (scratch : Option Nat) (t dset nb M N : Int) (d : Int → tile_t) (x : Int)
    (ht : 0 ≤ t) (hnb : 0 < nb) (hM : nb ≤ M) (hx0 : 0 ≤ x) (hxN : x < N)
    (hbuff : (d (row_of t nb * N + x)).output_buff ≠ none) :
    ((g.dependencies dset x = [] ∨ t = 0) →
      (execute_point gidx g scratch t dset nb M N d x).2 =
        [Event.call true gidx t x (row_of t nb * N + x) [row_of t nb * N + x]
          scratch g.scratch_bytes_per_task]) ∧
    (¬(g.dependencies dset x = [] ∨ t = 0) →
      (execute_point gidx g scratch t dset nb M N d x).2 = [] ∨
      ∃ ins, (execute_point gidx g scratch t dset nb M N d x).2 =
        [Event.call false gidx t x (row_of t nb * N + x) ins scratch
          g.scratch_bytes_per_task]) := by
  constructor
  · intro hcond
    rw [execute_point_single gidx g scratch t dset nb M N d x ht hnb hM hx0 hxN
      hbuff hcond]
  · intro hcond
    push_neg at hcond
    obtain ⟨hdeps, ht0⟩ := hcond
    by_cases hany : (gather_inputs g dset t nb M N d x).any
        (fun p => p.2.output_buff.isNone) = true
    · left
      rw [execute_point_multi_skip gidx g scratch t dset nb M N d x ht0 hdeps
        hany]
    · right
      refine ⟨(gather_inputs g dset t nb M N d x).map Prod.fst, ?_⟩
      rw [execute_point_multi_ok gidx g scratch t dset nb M N d x (by omega)
        hnb hM hx0 hxN hbuff hdeps (by simpa using hany)]

/-- Witness for C1 at the specification's worked example, `t = 0`,
column `0`: a single `task1` kernel call whose sole input is the
destination tile's own buffer. -/
theorem c1_witness :
    (execute_point 0 exGraph none 0 0 2 2 2 exStore 0).2 =
      [Event.call true 0 0 0 0 [0] none 0] :=
  (c1_single_input_dispatch 0 exGraph none 0 0 2 2 2 exStore 0 (by decide)
    (by decide) (by decide) (by decide) (by decide) (by decide)).1 (Or.inl rfl)

/-- C2: for a point with `t ≥ 1`, a non-empty dependency list, an
allocated destination buffer and allocated buffers for every in-range
dependency, the multi-input kernel is invoked exactly once, with exactly
the dependency tiles whose source column lies in `[0, N)` — taken from
row `(t-1) % nb_fields`, in declared order; an out-of-range source column
only removes that edge, and the kernel still runs even when no valid
input remains. -/
theorem c2_multi_input_gather (gidx : Nat) (g : TaskGraph)
    (scratch : Option Nat) (t dset nb M N : Int) (d : Int → tile_t) (x : Int)
    (ht : 1 ≤ t) (hnb : 0 < nb) (hM : nb ≤ M) (hx0 : 0 ≤ x) (hxN : x < N)
    (hdeps : g.dependencies dset x ≠ [])
    (hbuff : (d (row_of t nb * N + x)).output_buff ≠ none)
    (hin : ∀ dep ∈ g.dependencies dset x, 0 ≤ dep.1 → dep.1 < N →
      (d (row_of (t - 1) nb * N + dep.1)).output_buff ≠ none) :
    (execute_point gidx g scratch t dset nb M N d x).2 =
      [Event.call false gidx t x (row_of t nb * N + x)
        (((g.dependencies dset x).filter
            (fun dep => decide (0 ≤ dep.1 ∧ dep.1 < N))).map
          (fun dep => row_of (t - 1) nb * N + dep.1))
        scratch g.scratch_bytes_per_task] := by
  have hg := gather_inputs_eq g dset t nb M N d x ht hnb hM
  have hany : (gather_inputs g dset t nb M N d x).any
      (fun p => p.2.output_buff.isNone) = false := by
    rw [hg, List.any_eq_false]
    intro p hp
    simp only [List.mem_map, List.mem_filter] at hp
    obtain ⟨dep, ⟨hdmem, hdnd⟩, rfl⟩ := hp
    simp only [decide_eq_true_eq] at hdnd
    simp only [Option.isNone_iff_eq_none]
    exact hin dep hdmem hdnd.1 hdnd.2
  rw [execute_point_multi_ok gidx g scratch t dset nb M N d x ht hnb hM hx0 hxN
    hbuff hdeps hany, hg]
  simp [List.map_map, Function.comp]

/-- Witness for C2: at `t = 1` the example graph gathers the one
same-column input from row `0`, and the variant with an out-of-range
dependency column still invokes the kernel with zero inputs. -/
theorem c2_witness :
    (execute_point 0 exGraph none 1 1 2 2 2 exStore 0).2 =
      [Event.call false 0 1 0 2 [0] none 0] ∧
    (execute_point 0 exGraph2 none 1 1 2 2 2 exStore 0).2 =
      [Event.call false 0 1 0 2 [] none 0] := by
  constructor
  · have h := c2_multi_input_gather 0 exGraph none 1 1 2 2 2 exStore 0
      (by decide) (by decide) (by decide) (by decide) (by decide) (by decide)
      (by decide) (by decide)
    exact h.trans (by decide)
  · have h := c2_multi_input_gather 0 exGraph2 none 1 1 2 2 2 exStore 0
      (by decide) (by decide) (by decide) (by decide) (by decide) (by decide)
      (by decide) (by decide)
    exact h.trans (by decide)

/-- C3: the column list visited by a timestep is exactly the half-open
range `[offset_at_timestep t, offset_at_timestep t + width_at_timestep t)`
in strictly increasing order, the timestep list of a graph is strictly
increasing, and a well-formed timestep execution is precisely the point
loop folded over that column range. -/
theorem c3_visit_order (g : TaskGraph) (t x : Int) :
    (x ∈ intRange (g.offset_at_timestep t) (g.width_at_timestep t) ↔
      g.offset_at_timestep t ≤ x ∧
        x < g.offset_at_timestep t + g.width_at_timestep t) ∧
    List.Pairwise (· < ·)
      (intRange (g.offset_at_timestep t) (g.width_at_timestep t)) ∧
    List.Pairwise (· < ·) (timestepList g) ∧
    (∀ (st : AppState) (idx : Nat) (hlen : idx < st.graphs.length)
        (mats : Nat → matrix_t) (dd : Int → tile_t),
      st.matrix = some mats → (mats idx).data = some dd →
      g = st.graphs.get ⟨idx, hlen⟩ → 0 < g.nb_fields →
      (execute_timestep st idx t).2 =
        (pointLoop idx g st.scratch t (g.dependence_set_at_timestep t)
          g.nb_fields (mats idx).M (mats idx).N (dd, [])
          (intRange (g.offset_at_timestep t) (g.width_at_timestep t))).2) := by
  refine ⟨?_, ?_, ?_, ?_⟩
  · simp only [intRange, List.mem_map, List.mem_range]
    constructor
    · rintro ⟨k, hk, rfl⟩
      omega
    · rintro ⟨h1, h2⟩
      exact ⟨(x - g.offset_at_timestep t).toNat, by omega, by omega⟩
  · exact (List.pairwise_lt_range _).map _ (fun a b h => by omega)
  · exact (List.pairwise_lt_range _).map _ (fun a b h => by omega)
  · intro st idx hlen mats dd hm hd hg hnb
    simp only [execute_timestep]
    rw [dif_neg (by omega : ¬ st.graphs.length ≤ idx)]
    simp only [hm, hd, ← hg]
    rw [if_neg (by omega : ¬ g.nb_fields ≤ 0)]

/-- Witness for C3: the example state's timestep `0` trace is the point
loop over `intRange 0 2`. -/
theorem c3_witness :
    (execute_timestep exState 0 0).2 =
      (pointLoop 0 exGraph none 0 (exGraph.dependence_set_at_timestep 0)
        exGraph.nb_fields 2 2 (exStore, []) (intRange 0 2)).2 := by
  have h := (c3_visit_order exGraph 0 0).2.2.2 exState 0 (by decide) exMats
    exStore rfl rfl rfl (by decide)
  exact h.trans (by decide)

/-- C4: the destination row is `t % nb_fields` (truncated `%`), a value
in `[0, nb_fields)`; the selection is periodic, so timesteps `t1` and
`t1 + nb_fields` target the same flat tile index, and once the later
timestep's point performs its kernel call, that shared tile holds the
later write. -/
theorem c4_row_selection_reuse (t1 nb : Int) (ht : 0 ≤ t1) (hnb : 0 < nb) :
    (row_of t1 nb = Int.tmod t1 nb) ∧
    (0 ≤ row_of t1 nb ∧ row_of t1 nb < nb) ∧
    row_of (t1 + nb) nb = row_of t1 nb ∧
    (∀ (gidx : Nat) (g : TaskGraph) (scratch : Option Nat) (dset M N : Int)
        (d : Int → tile_t) (x : Int) (ev : Event),
      (execute_point gidx g scratch (t1 + nb) dset nb M N d x).2 = [ev] →
      ((execute_point gidx g scratch (t1 + nb) dset nb M N d x).1
          (row_of t1 nb * N + x)).output_buff = some (some (t1 + nb, x))) := by
  refine ⟨rfl, row_of_bounds ht hnb, row_of_period ht hnb, ?_⟩
  intro gidx g scratch dset M N d x ev hev
  rcases execute_point_cases gidx g scratch (t1 + nb) dset nb M N d x
    with h | ⟨b, ins, h⟩
  · rw [h] at hev
    simp at hev
  · rw [h]
    rw [row_of_period ht hnb] at h ⊢
    simp [updateData]

/-- Witness for C4 at `t1 = 0`, `nb_fields = 2`: executing the point
`(2, 0)` of the example graph overwrites the row-`0` tile written at
timestep `0` with timestep `2`'s tag. -/
theorem c4_witness :
    (0 ≤ row_of 0 2 ∧ row_of 0 2 < 2) ∧
    row_of (0 + 2) 2 = row_of 0 2 ∧
    ((execute_point 0 exGraph none (0 + 2) 1 2 2 2 exStore 0).1
        (row_of 0 2 * 2 + 0)).output_buff = some (some (0 + 2, 0)) := by
  have h := c4_row_selection_reuse 0 2 (by decide) (by decide)
  exact ⟨h.2.1, h.2.2.1, h.2.2.2 0 exGraph none 1 2 2 exStore 0
    (Event.call false 0 2 0 0 [2] none 0) (by decide)⟩

/-- C5: a destination column outside `[0, N)` skips the entire point —
the tile store (hence the destination tile) is unchanged and no kernel
call occurs — and the column loop continues exactly as if the offending
column were absent. -/
theorem c5_oob_column_skip (gidx : Nat) (g : TaskGraph) (scratch : Option Nat)
    (t dset nb M N : Int) (d : Int → tile_t) (x : Int)
    (hx : x < 0 ∨ N ≤ x) :
    execute_point gidx g scratch t dset nb M N d x = (d, []) ∧
    (∀ (init : (Int → tile_t) × List Event) (xs1 xs2 : List Int),
      pointLoop gidx g scratch t dset nb M N init (xs1 ++ x :: xs2) =
        pointLoop gidx g scratch t dset nb M N init (xs1 ++ xs2)) := by
  refine ⟨execute_point_oob _ _ _ _ _ _ _ _ _ _ hx, ?_⟩
  intro init xs1 xs2
  exact pointLoop_drop _ _ _ _ _ _ _ _ x
    (fun d2 => execute_point_oob _ _ _ _ _ _ _ _ d2 x hx) init xs1 xs2

/-- Witness for C5 at column `5` of the example graph (`max_width = 2`):
the point is skipped and the loop result matches the loop without it. -/
theorem c5_witness :
    execute_point 0 exGraph none 0 0 2 2 2 exStore 5 = (exStore, []) ∧
    pointLoop 0 exGraph none 0 0 2 2 2 (exStore, []) ([0] ++ 5 :: [1]) =
      pointLoop 0 exGraph none 0 0 2 2 2 (exStore, []) ([0] ++ [1]) := by
  have h := c5_oob_column_skip 0 exGraph none 0 0 2 2 2 exStore 5 (by decide)
  exact ⟨h.1, h.2 (exStore, []) [0] [1]⟩

/-- C6: the constructor's trace contains the `prepare_scratch` event
exactly once when `max(scratch_bytes_per_task) > 0` and not at all
otherwise; the state's scratch buffer is the single one of that maximal
size; every event of the main loop is a kernel call recording that same
shared scratch buffer; the main loop never modifies (in particular never
reallocates or resets) the scratch buffer; and the full run trace is the
constructor's events followed by the loop's events, so every
`prepare_scratch` precedes every kernel call. -/
theorem c6_scratch_lifecycle (graphs : List TaskGraph)
    (buffOk : Nat → Int → Bool) :
    ((SerialApp_init graphs buffOk).2.countP Event.isPrepare =
      if 0 < max_scratch graphs then 1 else 0) ∧
    (∀ ev ∈ (SerialApp_init graphs buffOk).2, ev.isPrepare = true) ∧
    ((SerialApp_init graphs buffOk).1.scratch =
      if 0 < max_scratch graphs then some (max_scratch graphs) else none) ∧
    (∀ ev ∈ (execute_main_loop (SerialApp_init graphs buffOk).1).2,
      ev.isCall = true ∧
        ev.scratchOf = some (SerialApp_init graphs buffOk).1.scratch) ∧
    ((execute_main_loop (SerialApp_init graphs buffOk).1).1.scratch =
      (SerialApp_init graphs buffOk).1.scratch) ∧
    ((runApp graphs buffOk).2 =
      (SerialApp_init graphs buffOk).2 ++
        (execute_main_loop (SerialApp_init graphs buffOk).1).2) := by
  have hinv := execute_main_loop_inv
    (fun s => s.scratch = (SerialApp_init graphs buffOk).1.scratch)
    (fun ev => ev.isCall = true ∧
      ev.scratchOf = some (SerialApp_init graphs buffOk).1.scratch)
    (fun s i t hs => ((execute_timestep_state s i t).2).trans hs)
    (fun s i t hs ev hev =>
      ⟨(execute_timestep_events s i t ev hev).1,
       ((execute_timestep_events s i t ev hev).2).trans (by rw [hs])⟩)
    (SerialApp_init graphs buffOk).1 rfl
  refine ⟨?_, ?_, ?_, hinv.2, hinv.1, rfl⟩
  · unfold SerialApp_init
    by_cases h : 0 < max_scratch graphs
    · rw [if_pos h, if_pos h]
      rfl
    · rw [if_neg h, if_neg h]
      rfl
  · unfold SerialApp_init
    by_cases h : 0 < max_scratch graphs
    · rw [if_pos h]
      intro ev hev
      simp only [List.mem_singleton] at hev
      subst hev
      rfl
    · rw [if_neg h]
      intro ev hev
      simp at hev
  · unfold SerialApp_init
    by_cases h : 0 < max_scratch graphs
    · rw [if_pos h, if_pos h]
    · rw [if_neg h, if_neg h]

/-- Witness for C6 on a run with scratch declared: one prepare event, and
the loop leaves the scratch buffer unchanged. -/
theorem c6_witness :
    (SerialApp_init [exGraphScr] (fun _ _ => true)).2.countP Event.isPrepare =
      (if 0 < max_scratch [exGraphScr] then 1 else 0) ∧
    (execute_main_loop
        (SerialApp_init [exGraphScr] (fun _ _ => true)).1).1.scratch =
      (SerialApp_init [exGraphScr] (fun _ _ => true)).1.scratch := by
  have h := c6_scratch_lifecycle [exGraphScr] (fun _ _ => true)
  exact ⟨h.1, h.2.2.2.2.1⟩

/-- C7 counterexample: with the tile-buffer allocation of tile `(0, 0)`
failing, the run neither aborts nor stops before the timestep loop — it
executes both timesteps and still issues kernel calls for column `1`,
contradicting the claim that any allocation failure is fatal and prevents
executing any timestep. -/
theorem c7_counterexample :
    (runApp [exGraph] (fun _ j => decide (j ≠ 0))).2 =
      [Event.call true 0 0 1 1 [1] none 0,
       Event.call false 0 1 1 3 [1] none 0] := by decide

/-- C7 (amended): allocation results are stored unchecked, so a failed
tile-buffer allocation is not fatal: the constructed state records the
NULL buffer, any point whose destination buffer is NULL is skipped with
no kernel call and no tile change, and the main loop still runs to
completion over every graph and timestep. -/
theorem c7_alloc_failure_not_fatal (graphs : List TaskGraph)
    (buffOk : Nat → Int → Bool) (i : Nat) (j : Int)
    (hfail : buffOk i j = false) :
    (∃ mats, (SerialApp_init graphs buffOk).1.matrix = some mats ∧
      ∃ d, (mats i).data = some d ∧ (d j).output_buff = none) ∧
    (∀ (gidx : Nat) (g : TaskGraph) (scratch : Option Nat)
        (t dset nb M N : Int) (d : Int → tile_t) (x : Int),
      (d (row_of t nb * N + x)).output_buff = none →
      execute_point gidx g scratch t dset nb M N d x = (d, [])) ∧
    ((execute_main_loop (SerialApp_init graphs buffOk).1).1.graphs = graphs ∧
     (execute_main_loop (SerialApp_init graphs buffOk).1).1.scratch =
       (SerialApp_init graphs buffOk).1.scratch) := by
  have hgr : (SerialApp_init graphs buffOk).1.graphs = graphs := by
    unfold SerialApp_init
    by_cases h : 0 < max_scratch graphs
    · rw [if_pos h]
    · rw [if_neg h]
  refine ⟨?_, ?_, ?_⟩
  · unfold SerialApp_init
    by_cases h : 0 < max_scratch graphs
    · rw [if_pos h]
      exact ⟨_, rfl, _, rfl, by simp [hfail]⟩
    · rw [if_neg h]
      exact ⟨_, rfl, _, rfl, by simp [hfail]⟩
  · intro gidx g scratch t dset nb M N d x hbuff
    exact execute_point_null_dst _ _ _ _ _ _ _ _ _ _ hbuff
  · have hinv := execute_main_loop_inv
      (fun s => s.graphs = graphs ∧
        s.scratch = (SerialApp_init graphs buffOk).1.scratch)
      (fun _ => True)
      (fun s i t hs =>
        ⟨((execute_timestep_state s i t).1).trans hs.1,
         ((execute_timestep_state s i t).2).trans hs.2⟩)
      (fun _ _ _ _ _ _ => trivial)
      (SerialApp_init graphs buffOk).1 ⟨hgr, rfl⟩
    exact hinv.1

/-- Witness for the amended C7: with tile `(0, 0)`'s allocation failing,
the constructed state records the NULL buffer and the loop still runs. -/
theorem c7_witness :
    (∃ mats, (SerialApp_init [exGraph] (fun _ j => decide (j ≠ 0))).1.matrix =
        some mats ∧
      ∃ d, (mats 0).data = some d ∧ (d 0).output_buff = none) ∧
    (execute_main_loop
        (SerialApp_init [exGraph] (fun _ j => decide (j ≠ 0))).1).1.graphs =
      [exGraph] := by
  have h := c7_alloc_failure_not_fatal [exGraph] (fun _ j => decide (j ≠ 0))
    0 0 (by decide)
  exact ⟨h.1, h.2.2.1⟩

/-- C8: for `nb_fields > 0`, `0 ≤ x < N` and `t ≥ 0`, the destination
flat index `(t % nb_fields) * N + x` always lies in `[0, nb_fields * N)`,
so the defensive bounds check on the destination index never fires. -/
theorem c8_dest_index_in_bounds (t x nb N : Int)
    (ht : 0 ≤ t) (hx0 : 0 ≤ x) (hxN : x < N) (hnb : 0 < nb) :
    ¬(row_of t nb * N + x < 0 ∨ nb * N ≤ row_of t nb * N + x) := by
  have hrow := row_of_bounds ht hnb
  have hb := dest_idx_bounds hrow.1 hrow.2 hx0 hxN
  omega

/-- Witness for C8 at `t = 5`, `x = 1`, `nb_fields = 2`, `N = 3`. -/
theorem c8_witness :
    ¬(row_of 5 2 * 3 + 1 < 0 ∨ 2 * 3 ≤ row_of 5 2 * 3 + 1) :=
  c8_dest_index_in_bounds 5 1 2 3 (by decide) (by decide) (by decide)
    (by decide)

/-- C9: every structural failure — invalid graph index, NULL matrix or
matrix data, non-positive `nb_fields`, NULL destination tile or
destination buffer — skips exactly the affected unit with no kernel call
and no state change, and execution continues: the timestep driver always
preserves the graph list and scratch buffer, and the main loop runs to
completion. -/
theorem c9_structural_failure_skip (st : AppState) (idx : Nat) (t : Int) :
    (st.graphs.length ≤ idx → execute_timestep st idx t = (st, [])) ∧
    (st.matrix = none → execute_timestep st idx t = (st, [])) ∧
    (∀ mats, st.matrix = some mats → (mats idx).data = none →
      execute_timestep st idx t = (st, [])) ∧
    (∀ h : idx < st.graphs.length,
      (st.graphs.get ⟨idx, h⟩).nb_fields ≤ 0 →
      execute_timestep st idx t = (st, [])) ∧
    (∀ (gidx : Nat) (scratch : Option Nat) (dst : Int) (p : payload_t),
      task1 gidx scratch dst none p = none) ∧
    (∀ (gidx : Nat) (g : TaskGraph) (scratch : Option Nat)
        (dset nb M N : Int) (d : Int → tile_t) (x : Int),
      (d (row_of t nb * N + x)).output_buff = none →
      execute_point gidx g scratch t dset nb M N d x = (d, [])) ∧
    ((execute_timestep st idx t).1.graphs = st.graphs ∧
     (execute_timestep st idx t).1.scratch = st.scratch) ∧
    ((execute_main_loop st).1.graphs = st.graphs ∧
     (execute_main_loop st).1.scratch = st.scratch) := by
  refine ⟨?_, ?_, ?_, ?_, ?_, ?_, execute_timestep_state st idx t, ?_⟩
  · intro h
    simp only [execute_timestep]
    rw [dif_pos h]
  · intro h
    by_cases hlen : st.graphs.length ≤ idx
    · simp only [execute_timestep]
      rw [dif_pos hlen]
    · simp only [execute_timestep]
      rw [dif_neg hlen]
      simp only [h]
  · intro mats hm hd
    by_cases hlen : st.graphs.length ≤ idx
    · simp only [execute_timestep]
      rw [dif_pos hlen]
    · simp only [execute_timestep]
      rw [dif_neg hlen]
      simp only [hm, hd]
  · intro h hnb
    have hlen : ¬ st.graphs.length ≤ idx := by omega
    simp only [execute_timestep]
    rw [dif_neg hlen]
    rcases hm : st.matrix with _ | mats
    · simp only [hm]
    · simp only [hm]
      rcases hd : (mats idx).data with _ | dd
      · simp only [hd]
      · simp only [hd]
        rw [if_pos hnb]
  · intro gidx scratch dst p
    rfl
  · intro gidx g scratch dset nb M N d x hbuff
    exact execute_point_null_dst _ _ _ _ _ _ _ _ _ _ hbuff
  · have hinv := execute_main_loop_inv
      (fun s => s.graphs = st.graphs ∧ s.scratch = st.scratch)
      (fun _ => True)
      (fun s i t2 hs =>
        ⟨((execute_timestep_state s i t2).1).trans hs.1,
         ((execute_timestep_state s i t2).2).trans hs.2⟩)
      (fun _ _ _ _ _ _ => trivial)
      st ⟨rfl, rfl⟩
    exact hinv.1

/-- Witness for C9: an invalid graph index and a non-positive `nb_fields`
both skip the whole timestep with the state unchanged. -/
theorem c9_witness :
    execute_timestep exState 5 0 = (exState, []) ∧
    execute_timestep exStateBad 0 0 = (exStateBad, []) := by
  have h1 := (c9_structural_failure_skip exState 5 0).1 (by decide)
  have h2 := (c9_structural_failure_skip exStateBad 0 0).2.2.2.1 (by decide)
    (by decide)
  exact ⟨h1, h2⟩

/-- C10: in the multi-input path (`t ≠ 0`, non-empty dependency list), a
NULL buffer among the gathered input tiles skips the entire point before
the kernel is invoked: no kernel call occurs and the tile store — in
particular the destination tile — is unchanged. -/
theorem c10_null_input_skip (gidx : Nat) (g : TaskGraph) (scratch : Option Nat)
    (t dset nb M N : Int) (d : Int → tile_t) (x : Int)
    (ht0 : t ≠ 0)
    (hdeps : g.dependencies dset x ≠ [])
    (hnull : (gather_inputs g dset t nb M N d x).any
        (fun p => p.2.output_buff.isNone) = true) :
    execute_point gidx g scratch t dset nb M N d x = (d, []) :=
  execute_point_multi_skip gidx g scratch t dset nb M N d x ht0 hdeps hnull

/-- Witness for C10: at `t = 1`, column `0` of the example graph with
tile `0`'s buffer NULL, the whole point is skipped. -/
theorem c10_witness :
    execute_point 0 exGraph none 1 1 2 2 2 exStoreBad 0 = (exStoreBad, []) :=
  c10_null_input_skip 0 exGraph none 1 1 2 2 2 exStoreBad 0 (by decide)
    (by decide) (by decide)
